import Mathlib

/-!
# Verification of the CSV Data Manager core

A shallow embedding of the CSV tokenizer/parser (`src/lib/csv-parser.ts`) and
the table engine (`src/components/data-table.tsx`, `src/app/page.tsx`) of the
repository, together with theorems settling the specification claims.

Strings are modelled by Lean `String`s, but all character-level operations are
defined on the underlying `List Char` so that every definition is structurally
recursive and evaluates inside the kernel.  JavaScript semantics modelled here:

* `String.prototype.trim` trims ASCII whitespace (the JS version also trims
  some exotic Unicode spaces; only ASCII whitespace occurs in this code path);
* `String.prototype.split(/\r\n|\n/)` on the empty string yields `[""]`,
  never `[]`;
* `String.prototype.substring(a, b)` clamps both indices to `[0, length]` and
  swaps them when `a > b`;
* `<` / `>` on strings is code-unit lexicographic comparison;
* `Array.prototype.sort` with a consistent comparator is a stable sort
  (required since ES2019), modelled by a stable insertion sort;
* a JS object with string keys (`Record<string, string>`) is modelled by an
  association list with unique keys in insertion order; assigning to an
  existing key replaces the value in place, assigning a fresh key appends.
-/

namespace CsvManager

/-- JS whitespace test used by `trim` (ASCII portion). -/
def jsIsWhitespace (c : Char) : Bool :=
  c == ' ' || c == '\t' || c == '\n' || c == '\r'

/-- Model of `String.prototype.trim` on the character list. -/
def jsTrimChars (cs : List Char) : List Char :=
  ((cs.dropWhile jsIsWhitespace).reverse.dropWhile jsIsWhitespace).reverse

/-- Model of `String.prototype.trim`. -/
def jsTrim (s : String) : String :=
  String.mk (jsTrimChars s.data)

/-- Model of `csvText.split(/\r\n|\n/)`: split on `\r\n` or `\n`, the regex
alternation preferring `\r\n`.  Always returns at least one piece -- in
particular `"".split` is `[""]`. -/
def splitLinesAux (acc : List Char) : List Char → List String
  | [] => [String.mk acc.reverse]
  | '\r' :: '\n' :: rest => String.mk acc.reverse :: splitLinesAux [] rest
  | '\n' :: rest => String.mk acc.reverse :: splitLinesAux [] rest
  | c :: rest => splitLinesAux (c :: acc) rest

/-- `text.split(/\r\n|\n/)` on a whole string. -/
def splitLines (s : String) : List String :=
  splitLinesAux [] s.data

/-- The character scan of `parseCSVLine` (src/lib/csv-parser.ts, lines 7-30):
accumulate the current field, toggle `inQuotes` on a quote, emit a literal
quote for an escaped pair `""` inside quotes (advancing past both characters),
and split on commas outside quotes.  The accumulator is kept reversed.  The
loop is structurally recursive on an explicit fuel so that it evaluates in the
kernel; every step consumes at least one character, so fuel `cs.length` always
suffices and the fuel-exhaustion arm is unreachable (see
`parseCSVLineScan_fuel`). -/
def parseCSVLineScan (fuel : Nat) (inQuotes : Bool) (acc : List Char) (cs : List Char) :
    List (List Char) :=
  match fuel, cs with
  | _, [] => [acc.reverse]
  | 0, _ :: _ => [acc.reverse]
  | fuel + 1, '"' :: rest =>
    if inQuotes && rest.head? == some '"' then
      parseCSVLineScan fuel true ('"' :: acc) rest.tail
    else
      parseCSVLineScan fuel (!inQuotes) acc rest
  | fuel + 1, ',' :: rest =>
    if inQuotes then parseCSVLineScan fuel inQuotes (',' :: acc) rest
    else acc.reverse :: parseCSVLineScan fuel inQuotes [] rest
  | fuel + 1, c :: rest => parseCSVLineScan fuel inQuotes (c :: acc) rest

/-- Model of `val.replace(/""/g, '"')`: collapse each (left-to-right,
non-overlapping) pair of double quotes into a single quote. -/
def collapseQuotes : List Char → List Char
  | '"' :: '"' :: rest => '"' :: collapseQuotes rest
  | c :: rest => c :: collapseQuotes rest
  | [] => []

/-- Model of `val.substring(1, val.length - 1)`: JS `substring` clamps both
arguments to `[0, length]` and swaps them when start exceeds end (so on a
one-character string, `substring(1, 0)` returns that character). -/
def jsSubstringDrop (cs : List Char) : List Char :=
  let n := cs.length
  let a := min 1 n
  let b := n - 1
  ((cs.drop (min a b)).take (max a b - min a b))

/-- `val.startsWith('"') && val.endsWith('"')` on the character list. -/
def wrappedInQuotes (cs : List Char) : Bool :=
  match cs with
  | [] => false
  | c :: rest => c == '"' && ((c :: rest).getLast? == some '"')

/-- The per-field post-processing of `parseCSVLine` (lines 35-40): a field
that starts and ends with a quote character is stripped of one leading and one
trailing character and has escaped quote pairs collapsed; every other field is
whitespace-trimmed.  (The scan consumes the delimiting quotes, so the first
branch can only fire on literal quotes produced by escaped pairs.) -/
def postProcessVal (cs : List Char) : String :=
  if wrappedInQuotes cs then String.mk (collapseQuotes (jsSubstringDrop cs))
  else String.mk (jsTrimChars cs)

/-- `parseCSVLine` (src/lib/csv-parser.ts, lines 7-41): scan the line into raw
fields, then post-process each field. -/
def parseCSVLine (line : String) : List String :=
  (parseCSVLineScan line.data.length false [] line.data).map postProcessVal

/-- The candidate renaming inside the header-uniqueness loop
(src/lib/csv-parser.ts, line 58):
an empty raw header becomes `UnnamedColumn<count>`, a non-empty one
becomes `<header>_<count>`. -/
def mkCandidate (header : String) (count : Nat) : String :=
  if header = "" then "UnnamedColumn" ++ Nat.repr count
  else header ++ "_" ++ Nat.repr count

/-- The `while` loop of the header-uniqueness pass (lines 57-60): as long as
the current candidate occurs among the *raw* headers strictly before this
position, or is empty, replace it by `mkCandidate header count` and increment
`count`.  The loop is modelled with explicit fuel; `uniqueHeader` supplies
fuel `prior.length + 2`, which exceeds the number of iterations the JS loop
can perform (the candidates for distinct counters are distinct decimal
numerals, so at most `prior.length` of them can collide with `prior`, and the
loop exits at the first non-colliding, non-empty candidate). -/
def dedupLoop (prior : List String) (header : String) : Nat → Nat → String → String
  | _, 0, cur => cur
  | count, fuel + 1, cur =>
    if prior.contains cur || cur == "" then
      dedupLoop prior header (count + 1) fuel (mkCandidate header count)
    else cur

/-- One header of `uniqueHeaders` (lines 53-62): run the renaming loop for the
raw header `header` against the raw headers `prior` that precede it. -/
def uniqueHeader (prior : List String) (header : String) : String :=
  dedupLoop prior header 1 (prior.length + 2) header

/-- `uniqueHeaders` (lines 53-62): each position is renamed against
`headers.slice(0, index)` -- the *raw* earlier headers, not the
already-finalized ones. -/
def uniqueHeadersGo (prior : List String) : List String → List String
  | [] => []
  | h :: rest => uniqueHeader prior h :: uniqueHeadersGo (prior ++ [h]) rest

/-- The full header de-duplication pass over a raw header list. -/
def uniqueHeaders (headers : List String) : List String :=
  uniqueHeadersGo [] headers

/-- A row of the dataset: a JS `Record<string, string>` modelled as an
association list in key-insertion order. -/
abbrev Row := List (String × String)

/-- Assignment `row[k] = v` on a JS object: replace the value of an existing
key in place, otherwise append the new key at the end. -/
def recordSet : Row → String → String → Row
  | [], k, v => [(k, v)]
  | (k', v') :: rest, k, v =>
    if k' == k then (k', v) :: rest else (k', v') :: recordSet rest k v

/-- The row-building `forEach` of `parseCSV` (lines 72-74):
`row[header] = values[index] !== undefined ? values[index] : ''`. -/
def buildRowGo (values : List String) : Nat → List String → Row → Row
  | _, [], row => row
  | i, h :: hs, row => buildRowGo values (i + 1) hs (recordSet row h ((values.get? i).getD ""))

/-- Build one data row by zipping the unique headers with the tokenized
values positionally; missing values default to the empty string and extra
values are dropped. -/
def buildRow (headers : List String) (values : List String) : Row :=
  buildRowGo values 0 headers []

/-- The result shape of `parseCSV`. -/
structure ParsedCsvData where
  headers : List String
  data : List Row
deriving DecidableEq, Repr

/-- `parseCSV` (src/lib/csv-parser.ts, lines 44-80): trim the document, split
into lines, return empty headers and rows when the line list is empty (a
branch JS can never take, since `split` always yields at least one piece),
tokenize and trim the first line into raw headers, de-duplicate them, and
build one row per non-blank remaining line. -/
def parseCSV (csvText : String) : ParsedCsvData :=
  match splitLines (jsTrim csvText) with
  | [] => ⟨[], []⟩
  | headerLine :: rest =>
    let headers := (parseCSVLine headerLine).map jsTrim
    let uhs := uniqueHeaders headers
    let data := rest.filterMap fun line =>
      if jsTrim line = "" then none
      else some (buildRow uhs (parseCSVLine line))
    ⟨uhs, data⟩

/-! ### Table engine (src/components/data-table.tsx, src/app/page.tsx) -/

/-- Model of `String.prototype.toLowerCase` (ASCII portion, via
`Char.toLower`; only ASCII data flows through this code path). -/
def jsToLower (s : String) : String :=
  String.mk (s.data.map Char.toLower)

/-- `sub.isPrefixOf s` on character lists. -/
def isPrefixOfChars : List Char → List Char → Bool
  | [], _ => true
  | _ :: _, [] => false
  | a :: as, b :: bs => a == b && isPrefixOfChars as bs

/-- Occurrence of `sub` anywhere in `s`. -/
def containsChars (sub : List Char) : List Char → Bool
  | [] => sub.isEmpty
  | c :: rest => isPrefixOfChars sub (c :: rest) || containsChars sub rest

/-- Model of `s.includes(sub)` on JS strings. -/
def jsIncludes (s sub : String) : Bool :=
  containsChars sub.data s.data

/-- `Object.values(row)` for the association-list row model: the values in
key-insertion order. -/
def rowValues (row : Row) : List String :=
  row.map Prod.snd

/-- The filter predicate of `filteredData` (data-table.tsx, lines 58-62): a
row passes when some field value, lowercased, contains the lowercased term. -/
def rowPasses (term : String) (row : Row) : Bool :=
  (rowValues row).any fun v => jsIncludes (jsToLower v) (jsToLower term)

/-- `filteredData` (data-table.tsx, lines 55-63): the empty term (falsy in JS)
returns the data unchanged, any other term keeps exactly the rows passing
`rowPasses`. -/
def filteredData (term : String) (data : List Row) : List Row :=
  if term = "" then data
  else data.filter (rowPasses term)

/-- Model of the JS string relation `<` (code-unit lexicographic). -/
def jsStrLtChars : List Char → List Char → Bool
  | [], [] => false
  | [], _ :: _ => true
  | _ :: _, [] => false
  | a :: as, b :: bs =>
    if a < b then true
    else if b < a then false
    else jsStrLtChars as bs

/-- `a < b` on JS strings. -/
def jsStrLt (a b : String) : Bool :=
  jsStrLtChars a.data b.data

/-- Sort direction of the table's sort config. -/
inductive Direction where
  | ascending
  | descending
deriving DecidableEq, Repr

/-- The table's sort config: a column key and a direction. -/
structure SortConfig where
  key : String
  direction : Direction
deriving DecidableEq, Repr

/-- `a[key]` on a row object: `none` models JS `undefined`. -/
def getField : Row → String → Option String
  | [], _ => none
  | (k, v) :: rest, key => if k == key then some v else getField rest key

/-- The comparator passed to `sort` in `sortedData` (data-table.tsx, lines
68-78): compare the two rows' raw values for the sort key with the JS string
relations `<` and `>`; any comparison involving `undefined` is false, giving
0.  No numeric parsing takes place. -/
def rowCompare (cfg : SortConfig) (a b : Row) : Int :=
  match getField a cfg.key, getField b cfg.key with
  | some valA, some valB =>
    if jsStrLt valA valB then
      match cfg.direction with
      | Direction.ascending => -1
      | Direction.descending => 1
    else if jsStrLt valB valA then
      match cfg.direction with
      | Direction.ascending => 1
      | Direction.descending => -1
    else 0
  | _, _ => 0

/-- Insert a row into an already-sorted list, before the first element it
does not have to follow.  Together with `stableSort` this models
`Array.prototype.sort` with a consistent comparator, which ES2019 requires to
be a stable sort (the stable result is unique, so any stable algorithm is a
faithful model). -/
def stableInsert (le : Row → Row → Bool) (x : Row) : List Row → List Row
  | [] => [x]
  | y :: ys => if le x y then x :: y :: ys else y :: stableInsert le x ys

/-- Stable insertion sort over rows. -/
def stableSort (le : Row → Row → Bool) : List Row → List Row
  | [] => []
  | x :: xs => stableInsert le x (stableSort le xs)

/-- `sortedData` (data-table.tsx, lines 65-81): no sort config leaves the
(filtered) data order unchanged; otherwise the rows are stably sorted by the
string comparator `rowCompare`. -/
def sortedData (sortConfig : Option SortConfig) (rows : List Row) : List Row :=
  match sortConfig with
  | none => rows
  | some cfg => stableSort (fun a b => rowCompare cfg a b ≤ 0) rows

/-- `ROWS_PER_PAGE` (data-table.tsx, line 27). -/
def rowsPerPage : Nat := 10

/-- The view-relevant component state of `DataTable`: the canonical rows held
in the `data` state plus the derived-view controls. -/
structure TableState where
  data : List Row
  sortConfig : Option SortConfig
  currentPage : Nat
  searchTerm : String
deriving DecidableEq, Repr

/-- The view pipeline filter → sort of the component, as a function of the
state. -/
def viewRows (s : TableState) : List Row :=
  sortedData s.sortConfig (filteredData s.searchTerm s.data)

/-- `totalPages = Math.ceil(sortedData.length / ROWS_PER_PAGE)`. -/
def totalPages (s : TableState) : Nat :=
  ((viewRows s).length + rowsPerPage - 1) / rowsPerPage

/-- `paginatedData` (data-table.tsx, lines 83-86):
`sortedData.slice(start, start + ROWS_PER_PAGE)`. -/
def paginatedData (s : TableState) : List Row :=
  (((viewRows s).drop ((s.currentPage - 1) * rowsPerPage)).take rowsPerPage)

/-- The search box `onChange` handler (data-table.tsx, lines 148-151): set
the term and reset to the first page. -/
def setSearchTerm (t : String) (s : TableState) : TableState :=
  { s with searchTerm := t, currentPage := 1 }

/-- `requestSort` (data-table.tsx, lines 90-97): toggle to descending when
the same key was already sorted ascending, else sort ascending; reset to the
first page. -/
def requestSort (key : String) (s : TableState) : TableState :=
  let direction :=
    match s.sortConfig with
    | some cfg =>
      if cfg.key = key && cfg.direction = Direction.ascending then
        Direction.descending
      else Direction.ascending
    | none => Direction.ascending
  { s with sortConfig := some ⟨key, direction⟩, currentPage := 1 }

/-- The `Next` button handler: `setCurrentPage(prev => Math.min(totalPages,
prev + 1))`. -/
def nextPage (s : TableState) : TableState :=
  { s with currentPage := min (totalPages s) (s.currentPage + 1) }

/-- The `Previous` button handler: `setCurrentPage(prev => Math.max(1,
prev - 1))`. -/
def prevPage (s : TableState) : TableState :=
  { s with currentPage := max 1 (s.currentPage - 1) }

/-- `data.indexOf(row)` returning `none` for `-1`.  JS `indexOf` compares
object references; rows here are plain string records created once per parse,
so value equality on the model coincides with it for the inputs the component
produces. -/
def jsIndexOfGo (r : Row) : Nat → List Row → Option Nat
  | _, [] => none
  | i, x :: xs => if x = r then some i else jsIndexOfGo r (i + 1) xs

/-- `data.indexOf(r)` as an optional index. -/
def jsIndexOf (data : List Row) (r : Row) : Option Nat :=
  jsIndexOfGo r 0 data

/-- The target resolution shared by `handleEdit` and `handleDelete`
(data-table.tsx, lines 99-104 and 114-119):
`data.indexOf(paginatedData[rowIndexInPaginatedData])`.  An out-of-range
view position yields JS `undefined`, whose `indexOf` in a list of rows is
`-1`; both cases are modelled by `none`, on which the handlers do nothing. -/
def resolveOriginalIndex (data pview : List Row) (i : Nat) : Option Nat :=
  match pview.get? i with
  | none => none
  | some r => jsIndexOf data r

/-- The indexed replacement underlying `handleRowUpdate`: `data.map((row,
index) => (index === rowIndex ? updatedRow : row))`. -/
def replaceAt (updatedRow : Row) (rowIndex i : Nat) : List Row → List Row
  | [] => []
  | x :: xs =>
    (if i = rowIndex then updatedRow else x) :: replaceAt updatedRow rowIndex (i + 1) xs

/-- `handleRowUpdate` (src/app/page.tsx, lines 88-103), restricted to the
targeted slot's data: replace the row whose index equals `rowIndex`. -/
def handleRowUpdate (data : List Row) (rowIndex : Nat) (updatedRow : Row) : List Row :=
  replaceAt updatedRow rowIndex 0 data

/-- The indexed filter underlying `handleRowDelete`:
`data.filter((_, index) => index !== rowIndex)`. -/
def removeAt (rowIndex i : Nat) : List Row → List Row
  | [] => []
  | x :: xs =>
    if i = rowIndex then removeAt rowIndex (i + 1) xs
    else x :: removeAt rowIndex (i + 1) xs

/-- `handleRowDelete` (src/app/page.tsx, lines 105-120), restricted to the
targeted slot's data: keep exactly the rows whose index differs from
`rowIndex`. -/
def handleRowDelete (data : List Row) (rowIndex : Nat) : List Row :=
  removeAt rowIndex 0 data

/-! ### General lemmas about the parser -/

/-- `String.append` acts as list append on the underlying characters. -/
theorem string_append_data (s t : String) : (s ++ t).data = s.data ++ t.data := rfl

/-- The scan of an empty line yields the single accumulated field, whatever
the fuel. -/
theorem parseCSVLineScan_nil (fuel : Nat) (inQ : Bool) (acc : List Char) :
    parseCSVLineScan fuel inQ acc [] = [acc.reverse] := by
  cases fuel <;> rfl

/-- Unfolding the scan on a quote character. -/
theorem parseCSVLineScan_quote (fuel : Nat) (inQ : Bool) (acc rest : List Char) :
    parseCSVLineScan (fuel + 1) inQ acc ('"' :: rest) =
      if inQ && rest.head? == some '"' then
        parseCSVLineScan fuel true ('"' :: acc) rest.tail
      else parseCSVLineScan fuel (!inQ) acc rest := rfl

/-- Unfolding the scan on a comma. -/
theorem parseCSVLineScan_comma (fuel : Nat) (inQ : Bool) (acc rest : List Char) :
    parseCSVLineScan (fuel + 1) inQ acc (',' :: rest) =
      if inQ then parseCSVLineScan fuel inQ (',' :: acc) rest
      else acc.reverse :: parseCSVLineScan fuel inQ [] rest := rfl

/-- Unfolding the scan on an ordinary character. -/
theorem parseCSVLineScan_other (fuel : Nat) (inQ : Bool) (acc : List Char) (c : Char)
    (rest : List Char) (h1 : c ≠ '"') (h2 : c ≠ ',') :
    parseCSVLineScan (fuel + 1) inQ acc (c :: rest) =
      parseCSVLineScan fuel inQ (c :: acc) rest := by
  conv_lhs => rw [parseCSVLineScan.eq_def]
  split <;> simp_all

/-- Fuel irrelevance: any fuel of at least the input length gives the same
scan result, so the fuel-exhaustion arm is unreachable at the fuel
`parseCSVLine` supplies and the model agrees with the unbounded JS loop. -/
theorem parseCSVLineScan_fuel :
    ∀ (f1 : Nat) (inQ : Bool) (acc cs : List Char) (f2 : Nat),
      cs.length ≤ f1 → cs.length ≤ f2 →
      parseCSVLineScan f1 inQ acc cs = parseCSVLineScan f2 inQ acc cs := by
  intro f1
  induction f1 with
  | zero =>
    intro inQ acc cs f2 h1 _
    have hnil : cs = [] := List.eq_nil_of_length_eq_zero (Nat.le_zero.mp h1)
    subst hnil
    rw [parseCSVLineScan_nil, parseCSVLineScan_nil]
  | succ n ih =>
    intro inQ acc cs f2 h1 h2
    cases cs with
    | nil => rw [parseCSVLineScan_nil, parseCSVLineScan_nil]
    | cons c rest =>
      cases f2 with
      | zero => simp at h2
      | succ m =>
        have hr1 : rest.length ≤ n := by
          simp only [List.length_cons] at h1
          omega
        have hr2 : rest.length ≤ m := by
          simp only [List.length_cons] at h2
          omega
        have ht1 : rest.tail.length ≤ n := by
          rw [List.length_tail]
          omega
        have ht2 : rest.tail.length ≤ m := by
          rw [List.length_tail]
          omega
        by_cases hq : c = '"'
        · subst hq
          rw [parseCSVLineScan_quote, parseCSVLineScan_quote]
          split
          · exact ih _ _ _ _ ht1 ht2
          · exact ih _ _ _ _ hr1 hr2
        · by_cases hc : c = ','
          · subst hc
            rw [parseCSVLineScan_comma, parseCSVLineScan_comma]
            split
            · exact ih _ _ _ _ hr1 hr2
            · rw [ih _ _ _ _ hr1 hr2]
          · rw [parseCSVLineScan_other n inQ acc c rest hq hc,
              parseCSVLineScan_other m inQ acc c rest hq hc]
            exact ih _ _ _ _ hr1 hr2

/-- The scan always produces at least one field. -/
theorem parseCSVLineScan_length (fuel : Nat) :
    ∀ (inQ : Bool) (acc cs : List Char), 1 ≤ (parseCSVLineScan fuel inQ acc cs).length := by
  induction fuel with
  | zero => intro inQ acc cs; cases cs <;> simp [parseCSVLineScan]
  | succ n ih =>
    intro inQ acc cs
    cases cs with
    | nil => simp [parseCSVLineScan_nil]
    | cons c rest =>
      by_cases hq : c = '"'
      · subst hq
        rw [parseCSVLineScan_quote]
        split
        · exact ih ..
        · exact ih ..
      · by_cases hc : c = ','
        · subst hc
          rw [parseCSVLineScan_comma]
          split
          · exact ih ..
          · simp
        · rw [parseCSVLineScan_other n inQ acc c rest hq hc]
          exact ih ..

/-- The tokenizer always returns at least one field, even on the empty
line. -/
theorem parseCSVLine_length (line : String) : 1 ≤ (parseCSVLine line).length := by
  unfold parseCSVLine
  rw [List.length_map]
  exact parseCSVLineScan_length ..

/-- Splitting a document into lines never yields the empty list (JS
`split` always returns at least one piece). -/
theorem splitLinesAux_ne_nil (n : Nat) :
    ∀ (acc cs : List Char), cs.length ≤ n → splitLinesAux acc cs ≠ [] := by
  induction n with
  | zero =>
    intro acc cs h
    have : cs = [] := List.eq_nil_of_length_eq_zero (Nat.le_zero.mp h)
    subst this
    simp [splitLinesAux]
  | succ n ih =>
    intro acc cs h
    rw [splitLinesAux.eq_def]
    split
    · simp
    · simp
    · simp
    · next c rest =>
      apply ih
      simp only [List.length_cons] at h
      omega

/-- `splitLines` never returns the empty list. -/
theorem splitLines_ne_nil (s : String) : splitLines s ≠ [] :=
  splitLinesAux_ne_nil s.data.length [] s.data le_rfl

/-- A renamed header candidate is never the empty string. -/
theorem mkCandidate_ne_empty (header : String) (count : Nat) :
    mkCandidate header count ≠ "" := by
  unfold mkCandidate
  split
  · intro h
    have hd : ("UnnamedColumn" ++ Nat.repr count).data = "".data := by rw [h]
    rw [string_append_data] at hd
    simp at hd
  · intro h
    have hd : (header ++ "_" ++ Nat.repr count).data = "".data := by rw [h]
    rw [string_append_data, string_append_data] at hd
    simp at hd

/-- The renaming loop never returns the empty string when it starts from a
non-empty candidate. -/
theorem dedupLoop_ne_empty (prior : List String) (header : String) :
    ∀ (fuel count : Nat) (cur : String), cur ≠ "" →
      dedupLoop prior header count fuel cur ≠ "" := by
  intro fuel
  induction fuel with
  | zero => intro count cur h; exact h
  | succ n ih =>
    intro count cur h
    unfold dedupLoop
    split
    · exact ih (count + 1) _ (mkCandidate_ne_empty header count)
    · exact h

/-- Every finalized header is non-empty. -/
theorem uniqueHeader_ne_empty (prior : List String) (header : String) :
    uniqueHeader prior header ≠ "" := by
  by_cases hh : header = ""
  · subst hh
    unfold uniqueHeader
    show dedupLoop prior "" 1 (prior.length + 1 + 1) "" ≠ ""
    unfold dedupLoop
    rw [if_pos (by simp)]
    exact dedupLoop_ne_empty prior "" _ 2 _ (mkCandidate_ne_empty "" 1)
  · exact dedupLoop_ne_empty prior header _ 1 header hh

/-- The de-duplication pass preserves the number of headers. -/
theorem uniqueHeadersGo_length :
    ∀ (headers prior : List String), (uniqueHeadersGo prior headers).length = headers.length := by
  intro headers
  induction headers with
  | nil => intro prior; rfl
  | cons h rest ih => intro prior; simp [uniqueHeadersGo, ih]

/-- The de-duplication pass never emits an empty header. -/
theorem uniqueHeadersGo_contains_empty :
    ∀ (headers prior : List String), (uniqueHeadersGo prior headers).contains "" = false := by
  intro headers
  induction headers with
  | nil => intro prior; rfl
  | cons h rest ih =>
    intro prior
    simp only [uniqueHeadersGo, List.contains_cons, Bool.or_eq_false_iff]
    constructor
    · exact beq_eq_false_iff_ne.mpr (Ne.symm (uniqueHeader_ne_empty prior h))
    · exact ih (prior ++ [h])

/-! ### Claim theorems for the parser -/

/-- C5: the line tokenizer splits a record on commas only outside quotes,
collapses an escaped pair `""` inside quotes to one literal quote, and always
returns at least one field; in particular `parseCSVLine "a,b,c" =
["a","b","c"]`, `parseCSVLine "\"a,b\",c" = ["a,b","c"]`,
`parseCSVLine "\"a\"\"b\",c" = ["a\"b","c"]`, and
`parseCSVLine "" = [""]`. -/
theorem tokenizer_splits_outside_quotes :
    (∀ line : String, 1 ≤ (parseCSVLine line).length) ∧
    parseCSVLine "a,b,c" = ["a", "b", "c"] ∧
    parseCSVLine "\"a,b\",c" = ["a,b", "c"] ∧
    parseCSVLine "\"a\"\"b\",c" = ["a\"b", "c"] ∧
    parseCSVLine "" = [""] :=
  ⟨parseCSVLine_length, by decide, by decide, by decide, by decide⟩

/-- C3 counterexample: the claim says a quoted field preserves its interior
content verbatim, so that `parseCSVLine "\" a \", b" = [" a ", "b"]`; in
fact the scan consumes the wrapping quotes, the post-processing branch that
skips trimming never sees them, and the field is trimmed to `"a"`. -/
theorem quoted_field_trimmed_counterexample :
    parseCSVLine "\" a \", b" = ["a", "b"] ∧
    ((parseCSVLine "\" a \", b" == [" a ", "b"]) = false) :=
  ⟨by decide, by decide⟩

/-- C3 amended: the tokenizer trims leading/trailing whitespace from unquoted
AND quoted fields alike (the wrapping quotes are removed and escaped quotes
collapsed during the scan, after which the field is trimmed like any other):
`parseCSVLine " a , b " = ["a","b"]` and also
`parseCSVLine "\" a \", b" = ["a","b"]`. -/
theorem fields_always_trimmed :
    parseCSVLine " a , b " = ["a", "b"] ∧
    parseCSVLine "\" a \", b" = ["a", "b"] :=
  ⟨by decide, by decide⟩

/-- C2: the header de-duplication checks each renamed candidate only against
the *raw* earlier headers (`headers.slice(0, index)`), never against the
earlier *finalized* headers, so a three-fold duplicate collapses to the same
`_1` suffix: raw headers `["Name","Name","","Name"]` produce
`["Name","Name_1","UnnamedColumn1","Name_1"]` — `"Name_1"` occurs twice —
instead of the unique sequence `[...,"Name_2"]` required by the claim and by
the code's own comment `// Ensure header uniqueness if duplicates exist`. -/
theorem header_dedup_collision_eval :
    uniqueHeaders ["Name", "Name", "", "Name"] =
      ["Name", "Name_1", "UnnamedColumn1", "Name_1"] ∧
    (uniqueHeaders ["Name", "Name", "", "Name"]).count "Name_1" = 2 :=
  ⟨by decide, by decide⟩

/-- C4: the claim (and the dead `lines.length === 0` branch of the code) says
an empty or all-whitespace document yields empty headers and empty rows; in
fact JS `"".split(...)` returns `[""]`, so the parser tokenizes the empty
header line and returns the single header `"UnnamedColumn1"` (with empty
rows). -/
theorem parse_empty_text_eval :
    parseCSV "" = ⟨["UnnamedColumn1"], []⟩ ∧
    parseCSV "  \t\n  " = ⟨["UnnamedColumn1"], []⟩ ∧
    (parseCSV "").headers.length = 1 :=
  ⟨by decide, by decide, by decide⟩

/-- C10: for every input string, `parseCSV` returns at least one header and
no returned header is the empty string, so the callers' zero-headers check
can never fire on a completed parse. -/
theorem parse_headers_nonempty (s : String) :
    1 ≤ (parseCSV s).headers.length ∧ (parseCSV s).headers.contains "" = false := by
  unfold parseCSV
  cases hsl : splitLines (jsTrim s) with
  | nil => exact absurd hsl (splitLines_ne_nil (jsTrim s))
  | cons headerLine rest =>
    refine ⟨?_, ?_⟩
    · show 1 ≤ (uniqueHeaders ((parseCSVLine headerLine).map jsTrim)).length
      rw [uniqueHeaders, uniqueHeadersGo_length, List.length_map]
      exact parseCSVLine_length headerLine
    · exact uniqueHeadersGo_contains_empty ((parseCSVLine headerLine).map jsTrim) []

/-! ### General lemmas about the table engine -/

/-- The indexed replacement ignores indices below the running counter. -/
theorem replaceAt_gt (r : Row) :
    ∀ (l : List Row) (k i : Nat), k < i → replaceAt r k i l = l := by
  intro l
  induction l with
  | nil => intro k i _; rfl
  | cons x xs ih =>
    intro k i h
    unfold replaceAt
    rw [if_neg (by omega), ih k (i + 1) (by omega)]

/-- The indexed replacement starting at counter `i` is `List.set` at
`k - i`. -/
theorem replaceAt_le (r : Row) :
    ∀ (l : List Row) (k i : Nat), i ≤ k → replaceAt r k i l = l.set (k - i) r := by
  intro l
  induction l with
  | nil => intro k i _; rfl
  | cons x xs ih =>
    intro k i h
    by_cases hik : i = k
    · subst hik
      unfold replaceAt
      rw [if_pos rfl, replaceAt_gt r xs i (i + 1) (by omega), Nat.sub_self]
      rfl
    · have h1 : i + 1 ≤ k := by omega
      unfold replaceAt
      rw [if_neg hik, ih k (i + 1) h1]
      have h2 : k - i = (k - (i + 1)) + 1 := by omega
      rw [h2]
      rfl

/-- `handleRowUpdate` is `List.set`. -/
theorem handleRowUpdate_eq_set (data : List Row) (k : Nat) (r : Row) :
    handleRowUpdate data k r = data.set k r := by
  unfold handleRowUpdate
  rw [replaceAt_le r data k 0 (Nat.zero_le k), Nat.sub_zero]

/-- The indexed removal ignores indices below the running counter. -/
theorem removeAt_gt :
    ∀ (l : List Row) (k i : Nat), k < i → removeAt k i l = l := by
  intro l
  induction l with
  | nil => intro k i _; rfl
  | cons x xs ih =>
    intro k i h
    unfold removeAt
    rw [if_neg (by omega), ih k (i + 1) (by omega)]

/-- The indexed removal starting at counter `i` is `List.eraseIdx` at
`k - i`. -/
theorem removeAt_le :
    ∀ (l : List Row) (k i : Nat), i ≤ k → removeAt k i l = l.eraseIdx (k - i) := by
  intro l
  induction l with
  | nil => intro k i _; rfl
  | cons x xs ih =>
    intro k i h
    by_cases hik : i = k
    · subst hik
      unfold removeAt
      rw [if_pos rfl, removeAt_gt xs i (i + 1) (by omega), Nat.sub_self]
      rfl
    · have h1 : i + 1 ≤ k := by omega
      unfold removeAt
      rw [if_neg hik, ih k (i + 1) h1]
      have h2 : k - i = (k - (i + 1)) + 1 := by omega
      rw [h2]
      rfl

/-- `handleRowDelete` is `List.eraseIdx`. -/
theorem handleRowDelete_eq_eraseIdx (data : List Row) (k : Nat) :
    handleRowDelete data k = data.eraseIdx k := by
  unfold handleRowDelete
  rw [removeAt_le data k 0 (Nat.zero_le k), Nat.sub_zero]

/-- `set` at an in-range index is observed at that index. -/
theorem get?_set_self {α : Type} :
    ∀ (l : List α) (k : Nat) (r : α), k < l.length → (l.set k r).get? k = some r := by
  intro l
  induction l with
  | nil => intro k r h; simp at h
  | cons x xs ih =>
    intro k r h
    cases k with
    | zero => rfl
    | succ n => exact ih n r (by simpa using h)

/-- `set` leaves every other index unchanged. -/
theorem get?_set_ne {α : Type} :
    ∀ (l : List α) (k j : Nat) (r : α), j ≠ k → (l.set k r).get? j = l.get? j := by
  intro l
  induction l with
  | nil => intro k j r _; rfl
  | cons x xs ih =>
    intro k j r h
    cases k with
    | zero =>
      cases j with
      | zero => exact absurd rfl h
      | succ m => rfl
    | succ n =>
      cases j with
      | zero => rfl
      | succ m => exact ih n m r (by omega)

/-- `set` at an out-of-range index is the identity. -/
theorem set_of_length_le {α : Type} :
    ∀ (l : List α) (k : Nat) (r : α), l.length ≤ k → l.set k r = l := by
  intro l
  induction l with
  | nil => intro k r _; rfl
  | cons x xs ih =>
    intro k r h
    cases k with
    | zero => simp at h
    | succ n =>
      show x :: xs.set n r = x :: xs
      rw [ih n r (by simpa using h)]

/-- Removing an in-range index shortens the list by one. -/
theorem length_eraseIdx_lt {α : Type} :
    ∀ (l : List α) (k : Nat), k < l.length → (l.eraseIdx k).length = l.length - 1 := by
  intro l
  induction l with
  | nil => intro k h; simp at h
  | cons x xs ih =>
    intro k h
    cases k with
    | zero => simp [List.eraseIdx]
    | succ n =>
      show (x :: xs.eraseIdx n).length = (x :: xs).length - 1
      have hn : n < xs.length := by simpa using h
      simp only [List.length_cons, ih n hn]
      omega

/-- Indices before the removed one are unchanged. -/
theorem get?_eraseIdx_lt {α : Type} :
    ∀ (l : List α) (k j : Nat), j < k → (l.eraseIdx k).get? j = l.get? j := by
  intro l
  induction l with
  | nil => intro k j _; rfl
  | cons x xs ih =>
    intro k j h
    cases k with
    | zero => omega
    | succ n =>
      cases j with
      | zero => rfl
      | succ m => exact ih n m (by omega)

/-- Indices at or after the removed one shift down by one. -/
theorem get?_eraseIdx_ge {α : Type} :
    ∀ (l : List α) (k j : Nat), k ≤ j → (l.eraseIdx k).get? j = l.get? (j + 1) := by
  intro l
  induction l with
  | nil => intro k j _; rfl
  | cons x xs ih =>
    intro k j h
    cases k with
    | zero => rfl
    | succ n =>
      cases j with
      | zero => omega
      | succ m => exact ih n m (by omega)

/-- Removing an out-of-range index is the identity. -/
theorem eraseIdx_of_length_le {α : Type} :
    ∀ (l : List α) (k : Nat), l.length ≤ k → l.eraseIdx k = l := by
  intro l
  induction l with
  | nil => intro k _; rfl
  | cons x xs ih =>
    intro k h
    cases k with
    | zero => simp at h
    | succ n =>
      show x :: xs.eraseIdx n = x :: xs
      rw [ih n (by simpa using h)]

/-- An out-of-range position reads as `none`. -/
theorem get?_of_length_le {α : Type} :
    ∀ (l : List α) (i : Nat), l.length ≤ i → l.get? i = none := by
  intro l
  induction l with
  | nil => intro i _; rfl
  | cons x xs ih =>
    intro i h
    cases i with
    | zero => simp at h
    | succ n => exact ih n (by simpa using h)

/-! ### Claim theorems for the table engine -/

/-- C1 counterexample: the claim says the sort compares numerically whenever
both values parse as numbers, so ascending sort on the column values
`["10","2","1"]` would give `["1","2","10"]`; in fact the comparator uses the
JS string relations `<`/`>` on the raw values, and the result is the
lexicographic order `["1","10","2"]`. -/
theorem sort_numeric_counterexample :
    sortedData (some ⟨"c", Direction.ascending⟩)
        [[("c", "10")], [("c", "2")], [("c", "1")]] =
      [[("c", "1")], [("c", "10")], [("c", "2")]] ∧
    ((sortedData (some ⟨"c", Direction.ascending⟩)
        [[("c", "10")], [("c", "2")], [("c", "1")]] ==
      [[("c", "1")], [("c", "2")], [("c", "10")]]) = false) :=
  ⟨by decide, by decide⟩

/-- C1 amended: the sort comparator always compares the two rows' raw column
values as strings (code-unit lexicographic), never numerically, so sorting
ascending on the column values `["10","2","1"]` yields `["1","10","2"]`:
`"10" < "2"` as strings even though `10 > 2` as numbers, and the direction
only flips the sign. -/
theorem sort_compares_as_strings :
    sortedData (some ⟨"c", Direction.ascending⟩)
        [[("c", "10")], [("c", "2")], [("c", "1")]] =
      [[("c", "1")], [("c", "10")], [("c", "2")]] ∧
    rowCompare ⟨"c", Direction.ascending⟩ [("c", "10")] [("c", "2")] = -1 ∧
    rowCompare ⟨"c", Direction.ascending⟩ [("c", "2")] [("c", "10")] = 1 ∧
    rowCompare ⟨"c", Direction.descending⟩ [("c", "10")] [("c", "2")] = 1 :=
  ⟨by decide, by decide, by decide, by decide⟩

/-- C6: the search, sort and page operations of the table component only
update the derived-view controls; the canonical row sequence held in the
`data` state is unchanged by each of them. -/
theorem view_ops_preserve_canonical_rows (s : TableState) (t key : String) :
    (setSearchTerm t s).data = s.data ∧
    (requestSort key s).data = s.data ∧
    (nextPage s).data = s.data ∧
    (prevPage s).data = s.data :=
  ⟨rfl, rfl, rfl, rfl⟩

/-- C7: search is a filter — the filtered row count never exceeds the total
count, the empty term passes all rows, and for a non-empty term a row is kept
exactly when some field value contains the term case-insensitively. -/
theorem search_is_filter (data : List Row) (term : String) :
    (filteredData term data).length ≤ data.length ∧
    filteredData "" data = data ∧
    ((term == "") = false → filteredData term data = data.filter (rowPasses term)) := by
  refine ⟨?_, ?_, fun h => ?_⟩
  · unfold filteredData
    split
    · exact le_rfl
    · exact List.length_filter_le _ _
  · unfold filteredData
    rw [if_pos rfl]
  · unfold filteredData
    rw [if_neg (by simpa using h)]

/-- Witness for C7 at a concrete dataset and term. -/
theorem search_is_filter_witness :
    (("x" == "") = false) ∧
    filteredData "x" [[("a", "x")], [("a", "y")]] =
      [[("a", "x")], [("a", "y")]].filter (rowPasses "x") :=
  ⟨by decide, (search_is_filter [[("a", "x")], [("a", "y")]] "x").2.2 (by decide)⟩

/-- C8: for a valid canonical index `k`, edit replaces exactly the row at
position `k` and preserves the length; delete removes exactly that row,
shortening the list by one and shifting all later positions down by one. -/
theorem edit_delete_frame (data : List Row) (k : Nat) (r : Row) (hk : k < data.length) :
    (handleRowUpdate data k r).length = data.length ∧
    (∀ j, (handleRowUpdate data k r).get? j = if j = k then some r else data.get? j) ∧
    (handleRowDelete data k).length = data.length - 1 ∧
    (∀ j, (handleRowDelete data k).get? j =
      if j < k then data.get? j else data.get? (j + 1)) := by
  rw [handleRowUpdate_eq_set, handleRowDelete_eq_eraseIdx]
  refine ⟨by simp, fun j => ?_, length_eraseIdx_lt data k hk, fun j => ?_⟩
  · by_cases hj : j = k
    · subst hj
      rw [if_pos rfl]
      exact get?_set_self data j r hk
    · rw [if_neg hj]
      exact get?_set_ne data k j r hj
  · by_cases hj : j < k
    · rw [if_pos hj]
      exact get?_eraseIdx_lt data k j hj
    · rw [if_neg hj]
      exact get?_eraseIdx_ge data k j (by omega)

/-- Witness for C8 at a concrete two-row dataset and index 0. -/
theorem edit_delete_frame_witness :
    0 < ([[("a", "1")], [("a", "2")]] : List Row).length ∧
    ((handleRowUpdate [[("a", "1")], [("a", "2")]] 0 [("a", "9")]).length =
        ([[("a", "1")], [("a", "2")]] : List Row).length ∧
      (∀ j, (handleRowUpdate [[("a", "1")], [("a", "2")]] 0 [("a", "9")]).get? j =
        if j = 0 then some [("a", "9")]
        else ([[("a", "1")], [("a", "2")]] : List Row).get? j) ∧
      (handleRowDelete [[("a", "1")], [("a", "2")]] 0).length =
        ([[("a", "1")], [("a", "2")]] : List Row).length - 1 ∧
      (∀ j, (handleRowDelete [[("a", "1")], [("a", "2")]] 0).get? j =
        if j < 0 then ([[("a", "1")], [("a", "2")]] : List Row).get? j
        else ([[("a", "1")], [("a", "2")]] : List Row).get? (j + 1))) :=
  ⟨by decide, edit_delete_frame [[("a", "1")], [("a", "2")]] 0 [("a", "9")] (by decide)⟩

/-- C9: a mutation whose target cannot be resolved is a silent no-op — an
out-of-range canonical index leaves edit and delete as the identity on the
row sequence, and an out-of-range view position resolves to no canonical
index at all (`indexOf` of `undefined` is `-1`).  All functions are total, so
no error is raised. -/
theorem mutation_out_of_range_noop (data : List Row) (k : Nat) (r : Row)
    (pview : List Row) (i : Nat) (hk : data.length ≤ k) (hi : pview.length ≤ i) :
    handleRowUpdate data k r = data ∧
    handleRowDelete data k = data ∧
    resolveOriginalIndex data pview i = none := by
  refine ⟨?_, ?_, ?_⟩
  · rw [handleRowUpdate_eq_set]
    exact set_of_length_le data k r hk
  · rw [handleRowDelete_eq_eraseIdx]
    exact eraseIdx_of_length_le data k hk
  · unfold resolveOriginalIndex
    rw [get?_of_length_le pview i hi]

/-- Witness for C9 at a one-row dataset, index 3, and an empty view slice. -/
theorem mutation_out_of_range_noop_witness :
    (([[("a", "1")]] : List Row).length ≤ 3 ∧ ([] : List Row).length ≤ 0) ∧
    (handleRowUpdate [[("a", "1")]] 3 [("b", "2")] = [[("a", "1")]] ∧
      handleRowDelete [[("a", "1")]] 3 = [[("a", "1")]] ∧
      resolveOriginalIndex [[("a", "1")]] [] 0 = none) :=
  ⟨⟨by decide, by decide⟩,
    mutation_out_of_range_noop [[("a", "1")]] 3 [("b", "2")] [] 0 (by decide) (by decide)⟩

end CsvManager
